import Mathlib

/-!
Shallow embedding of the 2048 board engine (`game_2048.py`).

The board is a single natural number; each of the 16 cells occupies 4 bits,
cell `i` at bit offset `i*4`.  Randomness in `spawn_tile` (the choice of an
empty cell by `random.choice` and the 2-vs-4 draw by `random.random() < 0.9`)
is modelled by explicit parameters `k : Nat` (choice index into the list of
empty cells) and `coin : Bool` (`true` = the 90% branch, exponent 1).
A raised `ValueError` is modelled with `Except`, the error value carrying the
board at the moment the exception is raised.
-/

namespace Game2048

/-- Python's `b & ~m` on a nonnegative `b`: clears from `b` every bit set in
`m`.  For nonnegative `b` this equals `b - (b &&& m)`, since the set bits of
`b &&& m` are a subset of the set bits of `b`. -/
def clearBits (b m : Nat) : Nat := b - (b &&& m)

/-- `get_cell`: `(self.board >> (index * 4)) & 0xF`. -/
def get_cell (board index : Nat) : Nat :=
  (board >>> (index * 4)) &&& 0xF

/-- `set_cell`: `board &= ~(0xF << shift); board |= (value & 0xF) << shift`
with `shift = index * 4`. -/
def set_cell (board index value : Nat) : Nat :=
  clearBits board (0xF <<< (index * 4)) ||| ((value &&& 0xF) <<< (index * 4))

/-- `get_row`: `[self.get_cell(row_index * 4 + col) for col in range(4)]`. -/
def get_row (board row_index : Nat) : List Nat :=
  (List.range 4).map fun col => get_cell board (row_index * 4 + col)

/-- `set_row`: `for col in range(4): self.set_cell(row_index * 4 + col, line[col])`. -/
def set_row (board row_index : Nat) (line : List Nat) : Nat :=
  (List.range 4).foldl (fun acc col => set_cell acc (row_index * 4 + col) (line.getD col 0))
    board

/-- `get_column`: `[self.get_cell(row * 4 + col_index) for row in range(4)]`. -/
def get_column (board col_index : Nat) : List Nat :=
  (List.range 4).map fun row => get_cell board (row * 4 + col_index)

/-- `set_column`: `for row in range(4): self.set_cell(row * 4 + col_index, line[row])`. -/
def set_column (board col_index : Nat) (line : List Nat) : Nat :=
  (List.range 4).foldl (fun acc row => set_cell acc (row * 4 + col_index) (line.getD row 0))
    board

/-- The merge loop of `process_line`, on the compacted (zero-free) list:
`for i in range(len(new_line))` with a `skip` flag; a pair of equal adjacent
entries becomes one entry `min(e + 1, 15)` and the consumed entry is skipped. -/
def mergeLoop : Bool → List Nat → List Nat
  | _, [] => []
  | true, _ :: rest => mergeLoop false rest
  | false, [a] => [a]
  | false, a :: b :: rest =>
    if a = b then min (a + 1) 15 :: mergeLoop true (b :: rest)
    else a :: mergeLoop false (b :: rest)

/-- `process_line`: compact (drop zeros), merge once left-to-right, pad with
zeros to length 4. -/
def process_line (line : List Nat) : List Nat :=
  let new_line := line.filter fun v => v ≠ 0
  let merged_line := mergeLoop false new_line
  merged_line ++ List.replicate (4 - merged_line.length) 0

/-- The spec's wording of the merge pass, for the refinement claim: a single
left-to-right pass replacing each leftmost pair of equal adjacent exponents
`e, e` by one entry `min (e + 1) 15`, the consumed entry skipped so that no
entry merges twice in the same pass. -/
def specMergePass : List Nat → List Nat
  | [] => []
  | [a] => [a]
  | a :: b :: rest =>
    if a = b then min (a + 1) 15 :: specMergePass rest
    else a :: specMergePass (b :: rest)

/-- The spec's three-step description of `process_line`: drop zeros preserving
order, one merge pass, pad on the right with zeros to length 4. -/
def spec_process_line (line : List Nat) : List Nat :=
  let compacted := line.filter fun v => v ≠ 0
  let merged := specMergePass compacted
  merged ++ List.replicate (4 - merged.length) 0

/-- Loop body of the `direction == 'left'` branch of `move`. -/
def rowStep (st : Nat × Bool) (row : Nat) : Nat × Bool :=
  let line := get_row st.1 row
  let new_line := process_line line
  (set_row st.1 row new_line, st.2 || decide (new_line ≠ line))

/-- Loop body of the `direction == 'right'` branch of `move`: the row is
reversed, processed and re-reversed before the write-back. -/
def rowStepRev (st : Nat × Bool) (row : Nat) : Nat × Bool :=
  let line := get_row st.1 row
  let reversed_line := line.reverse
  let new_line := (process_line reversed_line).reverse
  (set_row st.1 row new_line, st.2 || decide (new_line ≠ line))

/-- Loop body of the `direction == 'up'` branch of `move`. -/
def colStep (st : Nat × Bool) (col : Nat) : Nat × Bool :=
  let line := get_column st.1 col
  let new_line := process_line line
  (set_column st.1 col new_line, st.2 || decide (new_line ≠ line))

/-- Loop body of the `direction == 'down'` branch of `move`. -/
def colStepRev (st : Nat × Bool) (col : Nat) : Nat × Bool :=
  let line := get_column st.1 col
  let reversed_line := line.reverse
  let new_line := (process_line reversed_line).reverse
  (set_column st.1 col new_line, st.2 || decide (new_line ≠ line))

/-- The `direction == 'left'` branch of `move`. -/
def moveLeft (board : Nat) : Nat × Bool :=
  (List.range 4).foldl rowStep (board, false)

/-- The `direction == 'right'` branch of `move`. -/
def moveRight (board : Nat) : Nat × Bool :=
  (List.range 4).foldl rowStepRev (board, false)

/-- The `direction == 'up'` branch of `move`. -/
def moveUp (board : Nat) : Nat × Bool :=
  (List.range 4).foldl colStep (board, false)

/-- The `direction == 'down'` branch of `move`. -/
def moveDown (board : Nat) : Nat × Bool :=
  (List.range 4).foldl colStepRev (board, false)

/-- `empty_cells = [i for i in range(16) if self.get_cell(i) == 0]`. -/
def empty_cells (board : Nat) : List Nat :=
  (List.range 16).filter fun i => get_cell board i = 0

/-- `spawn_tile`: if there is no empty cell, return `false` without mutating;
otherwise set one empty cell to exponent 1 or 2 and return `true`.
`k` models `random.choice` (an arbitrary index into the list of empty cells,
taken modulo its length so every `k` denotes a list element) and `coin`
models `random.random() < 0.9` (`true` = exponent 1, `false` = exponent 2). -/
def spawn_tile (board : Nat) (k : Nat) (coin : Bool) : Nat × Bool :=
  let empty := empty_cells board
  if empty.isEmpty then (board, false)
  else
    let index := empty.getD (k % empty.length) 0
    let value := if coin then 1 else 2
    (set_cell board index value, true)

/-- The tail of `move`: `if moved and spawn_tile: self.spawn_tile()`, then
`return moved`. -/
def finishMove (st : Nat × Bool) (spawn : Bool) (k : Nat) (coin : Bool) : Nat × Bool :=
  if st.2 && spawn then ((spawn_tile st.1 k coin).1, st.2) else st

/-- `move(direction, spawn_tile)`: dispatch on the direction string; any other
string raises `ValueError` before any mutation, modelled by `Except.error`
carrying the board at the moment the exception is raised. -/
def move (board : Nat) (direction : String) (spawn : Bool) (k : Nat) (coin : Bool) :
    Except Nat (Nat × Bool) :=
  if direction = "left" then .ok (finishMove (moveLeft board) spawn k coin)
  else if direction = "right" then .ok (finishMove (moveRight board) spawn k coin)
  else if direction = "up" then .ok (finishMove (moveUp board) spawn k coin)
  else if direction = "down" then .ok (finishMove (moveDown board) spawn k coin)
  else .error board

/-- `is_game_over`: `false` if any cell is empty, otherwise `false` if some
cell equals its right neighbour (`col < 3`) or its down neighbour
(`row < 3`), else `true`. -/
def is_game_over (board : Nat) : Bool :=
  if (List.range 16).any (fun i => get_cell board i == 0) then false
  else if (List.range 4).any (fun row => (List.range 4).any fun col =>
      (decide (col < 3) && (get_cell board (row * 4 + col) == get_cell board (row * 4 + col + 1))) ||
      (decide (row < 3) && (get_cell board (row * 4 + col) == get_cell board ((row + 1) * 4 + col))))
    then false
  else true

/-- `reset`: `self.board = 0; self.spawn_tile(); self.spawn_tile()`, with the
two spawns' random draws made explicit. -/
def reset (k₁ : Nat) (c₁ : Bool) (k₂ : Nat) (c₂ : Bool) : Nat :=
  (spawn_tile (spawn_tile 0 k₁ c₁).1 k₂ c₂).1

/-- Number of non-empty cells of a board (spec: "total non-empty cell count"). -/
def count_nonempty (board : Nat) : Nat :=
  ((Finset.range 16).filter fun i => get_cell board i ≠ 0).card

/-! ### Bit-level groundwork -/

theorem land_fifteen (x : Nat) : x &&& 15 = x % 16 := by
  have h := Nat.and_pow_two_sub_one_eq_mod x 4
  norm_num at h
  exact h

theorem land_shiftLeft (b m k : Nat) :
    b &&& (m <<< k) = ((b >>> k) &&& m) <<< k := by
  apply Nat.eq_of_testBit_eq
  intro j
  rcases le_or_lt k j with h | h
  · simp [Nat.testBit_land, Nat.testBit_shiftLeft, Nat.testBit_shiftRight, h,
      Nat.add_sub_cancel' h]
  · simp [Nat.testBit_land, Nat.testBit_shiftLeft, Nat.not_le.mpr h]

theorem two_pow_four_mul (i : Nat) : (2 : Nat) ^ (i * 4) = 16 ^ i := by
  rw [Nat.mul_comm i 4, Nat.pow_mul]

theorem get_cell_eq (b i : Nat) : get_cell b i = b / 16 ^ i % 16 := by
  unfold get_cell
  rw [land_fifteen, Nat.shiftRight_eq_div_pow, two_pow_four_mul]

/-- Base-16 digit decomposition around an arbitrary power position. -/
theorem digit_decomp (b P : Nat) :
    b = b / (P * 16) * (P * 16) + b / P % 16 * P + b % P := by
  conv_lhs => rw [← Nat.div_add_mod b P, ← Nat.div_add_mod (b / P) 16]
  rw [Nat.div_div_eq_div_mul]
  ring

/-- Disjoint `or` is addition. -/
theorem lor_eq_add : ∀ {x : Nat} (y : Nat), x &&& y = 0 → x ||| y = x + y := by
  intro x
  induction x using Nat.binaryRec with
  | z => intro y _; simp
  | f a m ih =>
    intro y h
    rw [← Nat.bit_testBit_zero_shiftRight_one y] at h ⊢
    rw [Nat.land_bit] at h
    obtain ⟨h1, h2⟩ := Nat.bit_eq_zero_iff.mp h
    rw [Nat.lor_bit, ih _ h1, Nat.bit_val, Nat.bit_val, Nat.bit_val]
    cases a <;> cases hb : y.testBit 0 <;>
      simp only [hb, Bool.true_and, Bool.false_and, Bool.true_or, Bool.false_or,
        Bool.or_false, Bool.toNat_true, Bool.toNat_false] at h2 ⊢ <;>
      first
      | exact Bool.noConfusion h2
      | omega

theorem testBit_eq_false_of_lt {x j : Nat} (h : x < 2 ^ j) :
    x.testBit j = false := by
  simp [Nat.testBit_to_div_mod, Nat.div_eq_of_lt h]

theorem pow16_pos (i : Nat) : 0 < (16 : Nat) ^ i :=
  Nat.pos_pow_of_pos i (by norm_num)

theorem land_mask_eq (b i : Nat) :
    b &&& (15 <<< (i * 4)) = b / 16 ^ i % 16 * 16 ^ i := by
  rw [land_shiftLeft, Nat.shiftLeft_eq, land_fifteen, Nat.shiftRight_eq_div_pow,
    two_pow_four_mul]

theorem clearBits_mask_eq (b i : Nat) :
    clearBits b (15 <<< (i * 4)) = b / (16 ^ i * 16) * (16 ^ i * 16) + b % 16 ^ i := by
  unfold clearBits
  rw [land_mask_eq]
  have h := digit_decomp b (16 ^ i)
  set A := b / (16 ^ i * 16) * (16 ^ i * 16) with hA
  set Y := b / 16 ^ i % 16 * 16 ^ i with hY
  set Z := b % 16 ^ i with hZ
  omega

theorem land_high_low_disjoint (hi lo w k : Nat) (hlo : lo < 2 ^ k) (hw : w < 16) :
    (hi * 2 ^ (k + 4) + lo) &&& (w * 2 ^ k) = 0 := by
  apply Nat.eq_of_testBit_eq
  intro j
  rw [Nat.testBit_land, Nat.zero_testBit]
  rcases lt_or_ge j k with hj | hj
  · have hr : (w * 2 ^ k).testBit j = false := by
      rw [← Nat.shiftLeft_eq, Nat.testBit_shiftLeft]
      simp [Nat.not_le.mpr hj]
    simp [hr]
  · rcases lt_or_ge j (k + 4) with hj4 | hj4
    · have hl : (hi * 2 ^ (k + 4) + lo).testBit j = false := by
        have hd : hi * 2 ^ (k + 4) + lo = lo + hi * 2 ^ (k + 3 - j) * 2 * 2 ^ j := by
          have h24 : 2 ^ (k + 4) = 2 ^ (k + 3 - j) * 2 * 2 ^ j := by
            rw [Nat.mul_assoc, ← Nat.pow_succ', ← Nat.pow_add]
            congr 1
            omega
          rw [h24]
          ring
        rw [Nat.testBit_to_div_mod, hd]
        have hlo' : lo / 2 ^ j = 0 :=
          Nat.div_eq_of_lt (lt_of_lt_of_le hlo (Nat.pow_le_pow_right (by norm_num) hj))
        rw [Nat.add_mul_div_right _ _ (Nat.pos_pow_of_pos j (by norm_num)), hlo']
        simp [Nat.mul_mod_left]
      simp [hl]
    · have hr : (w * 2 ^ k).testBit j = false := by
        apply testBit_eq_false_of_lt
        have hpos : 0 < (2 : Nat) ^ k := Nat.pos_pow_of_pos k (by norm_num)
        calc w * 2 ^ k < 16 * 2 ^ k := (Nat.mul_lt_mul_right hpos).mpr hw
          _ = 2 ^ (k + 4) := by rw [Nat.pow_add]; ring
          _ ≤ 2 ^ j := Nat.pow_le_pow_right (by norm_num) hj4
      simp [hr]

/-- Arithmetic characterization of `set_cell`: replace the base-16 digit at
position `i` by `value % 16`. -/
theorem set_cell_eq (b i v : Nat) :
    set_cell b i v = b / 16 ^ (i + 1) * 16 ^ (i + 1) + v % 16 * 16 ^ i + b % 16 ^ i := by
  unfold set_cell
  have h15 : (0xF : Nat) = 15 := rfl
  rw [h15, clearBits_mask_eq, Nat.shiftLeft_eq, land_fifteen, two_pow_four_mul]
  have hP : (16 : Nat) ^ i * 16 = 16 ^ (i + 1) := by rw [Nat.pow_succ]
  have hP2 : (16 : Nat) ^ (i + 1) = 2 ^ (i * 4 + 4) := by
    rw [Nat.pow_add, Nat.pow_add, two_pow_four_mul]
  have hdisj :
      (b / 16 ^ (i + 1) * 16 ^ (i + 1) + b % 16 ^ i) &&& (v % 16 * 16 ^ i) = 0 := by
    rw [hP2, ← two_pow_four_mul]
    exact land_high_low_disjoint _ _ _ _
      (by rw [two_pow_four_mul]; exact Nat.mod_lt b (pow16_pos i))
      (Nat.mod_lt v (by norm_num))
  rw [hP, lor_eq_add _ hdisj]
  ring

/-- Reading the digit just written. -/
theorem get_cell_set_cell_self (b i v : Nat) :
    get_cell (set_cell b i v) i = v % 16 := by
  rw [get_cell_eq, set_cell_eq]
  have h1 : b / 16 ^ (i + 1) * 16 ^ (i + 1) + v % 16 * 16 ^ i + b % 16 ^ i
      = b % 16 ^ i + (16 * (b / 16 ^ (i + 1)) + v % 16) * 16 ^ i := by
    rw [Nat.pow_succ]
    ring
  rw [h1, Nat.add_mul_div_right _ _ (pow16_pos i),
    Nat.div_eq_of_lt (Nat.mod_lt b (pow16_pos i)), Nat.zero_add,
    Nat.mul_add_mod, Nat.mod_eq_of_lt (Nat.mod_lt v (by norm_num))]

/-- Writing one cell leaves every other cell's digit unchanged. -/
theorem get_cell_set_cell_ne (b i v j : Nat) (hne : j ≠ i) :
    get_cell (set_cell b i v) j = get_cell b j := by
  rw [get_cell_eq, get_cell_eq, set_cell_eq]
  rcases lt_or_gt_of_ne hne with hj | hj
  · -- j < i : both digits are determined by the value mod 16^(j+1)
    have hdvd : (16 : Nat) ^ (j + 1) ∣ 16 ^ i := pow_dvd_pow 16 (by omega)
    have hmod : (b / 16 ^ (i + 1) * 16 ^ (i + 1) + v % 16 * 16 ^ i + b % 16 ^ i)
        % 16 ^ (j + 1) = b % 16 ^ (j + 1) := by
      obtain ⟨c, hc⟩ := hdvd
      have hi1 : (16 : Nat) ^ (i + 1) = 16 ^ (j + 1) * (c * 16) := by
        rw [Nat.pow_succ, hc]
        ring
      calc (b / 16 ^ (i + 1) * 16 ^ (i + 1) + v % 16 * 16 ^ i + b % 16 ^ i)
            % 16 ^ (j + 1)
          = (b % 16 ^ i +
              (b / 16 ^ (i + 1) * (c * 16) + v % 16 * c) * 16 ^ (j + 1))
            % 16 ^ (j + 1) := by rw [hi1, hc]; ring_nf
        _ = b % 16 ^ i % 16 ^ (j + 1) := by rw [Nat.add_mul_mod_self_right]
        _ = b % 16 ^ (j + 1) := Nat.mod_mod_of_dvd b ⟨c, hc⟩
    rw [← Nat.mod_mul_right_div_self, ← Nat.mod_mul_right_div_self,
      ← Nat.pow_succ, hmod]
  · -- j > i : the quotient by 16^(i+1) is unchanged
    have hq : (b / 16 ^ (i + 1) * 16 ^ (i + 1) + v % 16 * 16 ^ i + b % 16 ^ i)
        / 16 ^ (i + 1) = b / 16 ^ (i + 1) := by
      have hlt : v % 16 * 16 ^ i + b % 16 ^ i < 16 ^ (i + 1) := by
        have h1 : v % 16 * 16 ^ i ≤ 15 * 16 ^ i :=
          Nat.mul_le_mul_right _ (by omega)
        have h2 : b % 16 ^ i < 16 ^ i := Nat.mod_lt b (pow16_pos i)
        have h3 : (16 : Nat) ^ (i + 1) = 16 * 16 ^ i := by
          rw [Nat.pow_succ]; ring
        omega
      have hre : b / 16 ^ (i + 1) * 16 ^ (i + 1) + v % 16 * 16 ^ i + b % 16 ^ i
          = (v % 16 * 16 ^ i + b % 16 ^ i) + b / 16 ^ (i + 1) * 16 ^ (i + 1) := by
        ring
      rw [hre, Nat.add_mul_div_right _ _ (pow16_pos (i + 1)),
        Nat.div_eq_of_lt hlt, Nat.zero_add]
    have hj' : (16 : Nat) ^ (i + 1) * 16 ^ (j - i - 1) = 16 ^ j := by
      rw [← Nat.pow_add]
      congr 1
      omega
    rw [← hj', ← Nat.div_div_eq_div_mul, ← Nat.div_div_eq_div_mul, hq]

theorem get_cell_lt (b i : Nat) : get_cell b i < 16 := by
  rw [get_cell_eq]
  exact Nat.mod_lt _ (by norm_num)

/-- Writing back the value just read is the identity. -/
theorem set_cell_self (b i : Nat) : set_cell b i (get_cell b i) = b := by
  have hlt : b / 16 ^ i % 16 < 16 := Nat.mod_lt _ (by norm_num)
  rw [set_cell_eq, Nat.pow_succ, get_cell_eq, Nat.mod_eq_of_lt hlt]
  exact (digit_decomp b (16 ^ i)).symm

/-- `set_cell` preserves the 64-bit bound. -/
theorem set_cell_lt (b i v : Nat) (hi : i < 16) (hb : b < 16 ^ 16) :
    set_cell b i v < 16 ^ 16 := by
  rw [set_cell_eq, Nat.add_assoc]
  have hlow : v % 16 * 16 ^ i + b % 16 ^ i < 16 ^ (i + 1) := by
    have h1 : v % 16 ≤ 15 := by
      have := Nat.mod_lt v (show 0 < 16 by norm_num)
      omega
    have h2 : b % 16 ^ i < 16 ^ i := Nat.mod_lt b (pow16_pos i)
    have h3 : (16 : Nat) ^ (i + 1) = 16 * 16 ^ i := by rw [Nat.pow_succ]; ring
    have h4 : v % 16 * 16 ^ i ≤ 15 * 16 ^ i := Nat.mul_le_mul_right _ h1
    omega
  have hq1 : b / 16 ^ (i + 1) + 1 ≤ 16 ^ (15 - i) := by
    have hdiv : b / 16 ^ (i + 1) < 16 ^ (15 - i) := by
      apply Nat.div_lt_of_lt_mul
      calc b < 16 ^ 16 := hb
        _ = 16 ^ (i + 1) * 16 ^ (15 - i) := by rw [← Nat.pow_add]; congr 1; omega
    omega
  calc b / 16 ^ (i + 1) * 16 ^ (i + 1) + (v % 16 * 16 ^ i + b % 16 ^ i)
      < b / 16 ^ (i + 1) * 16 ^ (i + 1) + 16 ^ (i + 1) := Nat.add_lt_add_left hlow _
    _ = (b / 16 ^ (i + 1) + 1) * 16 ^ (i + 1) := by ring
    _ ≤ 16 ^ (15 - i) * 16 ^ (i + 1) := Nat.mul_le_mul_right _ hq1
    _ = 16 ^ 16 := by rw [← Nat.pow_add]; congr 1; omega

/-! ### Row and column lemmas -/

theorem get_row_unfold (b r : Nat) :
    get_row b r = [get_cell b (r * 4), get_cell b (r * 4 + 1),
      get_cell b (r * 4 + 2), get_cell b (r * 4 + 3)] := rfl

theorem set_row_unfold (b r : Nat) (l : List Nat) :
    set_row b r l =
      set_cell (set_cell (set_cell (set_cell b (r * 4) (l.getD 0 0))
        (r * 4 + 1) (l.getD 1 0)) (r * 4 + 2) (l.getD 2 0)) (r * 4 + 3) (l.getD 3 0) := rfl

theorem get_column_unfold (b c : Nat) :
    get_column b c = [get_cell b (0 * 4 + c), get_cell b (1 * 4 + c),
      get_cell b (2 * 4 + c), get_cell b (3 * 4 + c)] := rfl

theorem set_column_unfold (b c : Nat) (l : List Nat) :
    set_column b c l =
      set_cell (set_cell (set_cell (set_cell b (0 * 4 + c) (l.getD 0 0))
        (1 * 4 + c) (l.getD 1 0)) (2 * 4 + c) (l.getD 2 0)) (3 * 4 + c) (l.getD 3 0) := rfl

theorem set_row_get_row (b r : Nat) : set_row b r (get_row b r) = b := by
  rw [set_row_unfold]
  have h0 : (get_row b r).getD 0 0 = get_cell b (r * 4) := rfl
  have h1 : (get_row b r).getD 1 0 = get_cell b (r * 4 + 1) := rfl
  have h2 : (get_row b r).getD 2 0 = get_cell b (r * 4 + 2) := rfl
  have h3 : (get_row b r).getD 3 0 = get_cell b (r * 4 + 3) := rfl
  rw [h0, h1, h2, h3, set_cell_self, set_cell_self, set_cell_self, set_cell_self]

theorem set_column_get_column (b c : Nat) : set_column b c (get_column b c) = b := by
  rw [set_column_unfold]
  have h0 : (get_column b c).getD 0 0 = get_cell b (0 * 4 + c) := rfl
  have h1 : (get_column b c).getD 1 0 = get_cell b (1 * 4 + c) := rfl
  have h2 : (get_column b c).getD 2 0 = get_cell b (2 * 4 + c) := rfl
  have h3 : (get_column b c).getD 3 0 = get_cell b (3 * 4 + c) := rfl
  rw [h0, h1, h2, h3, set_cell_self, set_cell_self, set_cell_self, set_cell_self]

/-- Cells outside row `r` are untouched by `set_row`. -/
theorem get_cell_set_row_ne (b r j : Nat) (l : List Nat) (hj : ∀ c < 4, j ≠ r * 4 + c) :
    get_cell (set_row b r l) j = get_cell b j := by
  rw [set_row_unfold,
    get_cell_set_cell_ne _ _ _ _ (hj 3 (by norm_num)),
    get_cell_set_cell_ne _ _ _ _ (hj 2 (by norm_num)),
    get_cell_set_cell_ne _ _ _ _ (hj 1 (by norm_num))]
  have h0 := hj 0 (by norm_num)
  exact get_cell_set_cell_ne _ _ _ _ (by omega)

/-- Cells inside row `r` after `set_row` hold the written line (masked). -/
theorem get_cell_set_row_self (b r c : Nat) (l : List Nat) (hc : c < 4) :
    get_cell (set_row b r l) (r * 4 + c) = l.getD c 0 % 16 := by
  interval_cases c
  · rw [set_row_unfold,
      get_cell_set_cell_ne _ _ _ _ (by omega),
      get_cell_set_cell_ne _ _ _ _ (by omega),
      get_cell_set_cell_ne _ _ _ _ (by omega)]
    have h : r * 4 + 0 = r * 4 := by omega
    rw [h, get_cell_set_cell_self]
  · rw [set_row_unfold,
      get_cell_set_cell_ne _ _ _ _ (by omega),
      get_cell_set_cell_ne _ _ _ _ (by omega),
      get_cell_set_cell_self]
  · rw [set_row_unfold,
      get_cell_set_cell_ne _ _ _ _ (by omega),
      get_cell_set_cell_self]
  · rw [set_row_unfold, get_cell_set_cell_self]

/-- Cells outside column `c` are untouched by `set_column`. -/
theorem get_cell_set_column_ne (b c j : Nat) (l : List Nat) (hj : ∀ r < 4, j ≠ r * 4 + c) :
    get_cell (set_column b c l) j = get_cell b j := by
  rw [set_column_unfold,
    get_cell_set_cell_ne _ _ _ _ (hj 3 (by norm_num)),
    get_cell_set_cell_ne _ _ _ _ (hj 2 (by norm_num)),
    get_cell_set_cell_ne _ _ _ _ (hj 1 (by norm_num))]
  have h0 := hj 0 (by norm_num)
  exact get_cell_set_cell_ne _ _ _ _ (by omega)

/-- Cells inside column `c` after `set_column` hold the written line (masked). -/
theorem get_cell_set_column_self (b c r : Nat) (l : List Nat) (hr : r < 4) :
    get_cell (set_column b c l) (r * 4 + c) = l.getD r 0 % 16 := by
  interval_cases r
  · rw [set_column_unfold,
      get_cell_set_cell_ne _ _ _ _ (by omega),
      get_cell_set_cell_ne _ _ _ _ (by omega),
      get_cell_set_cell_ne _ _ _ _ (by omega),
      get_cell_set_cell_self]
  · rw [set_column_unfold,
      get_cell_set_cell_ne _ _ _ _ (by omega),
      get_cell_set_cell_ne _ _ _ _ (by omega),
      get_cell_set_cell_self]
  · rw [set_column_unfold,
      get_cell_set_cell_ne _ _ _ _ (by omega),
      get_cell_set_cell_self]
  · rw [set_column_unfold, get_cell_set_cell_self]

/-! ### `process_line` lemmas -/

/-- The indexed skip-flag loop of the source equals the spec's recursive
description of the single merge pass. -/
theorem mergeLoop_eq_specMergePass : ∀ l, mergeLoop false l = specMergePass l := by
  intro l
  induction l using specMergePass.induct with
  | case1 => rfl
  | case2 a => rfl
  | case3 b rest ih => simp [mergeLoop, specMergePass, ih]
  | case4 a b rest hab ih => simp [mergeLoop, specMergePass, hab, ih]

theorem specMergePass_length_le : ∀ l : List Nat, (specMergePass l).length ≤ l.length := by
  intro l
  induction l using specMergePass.induct with
  | case1 => simp [specMergePass]
  | case2 a => simp [specMergePass]
  | case3 b rest ih => simp [specMergePass]; omega
  | case4 a b rest hab ih =>
    simp only [List.length_cons] at ih
    simp [specMergePass, hab]
    omega

theorem specMergePass_eq_of_length :
    ∀ l : List Nat, (specMergePass l).length = l.length → specMergePass l = l := by
  intro l
  induction l using specMergePass.induct with
  | case1 => intro _; rfl
  | case2 a => intro _; rfl
  | case3 b rest ih =>
    intro h
    exfalso
    have hle := specMergePass_length_le rest
    simp [specMergePass] at h
    omega
  | case4 a b rest hab ih =>
    intro h
    simp [specMergePass, hab] at h ⊢
    exact ih h

/-- Every entry produced by the merge pass is an input entry or at most 15. -/
theorem specMergePass_mem : ∀ l : List Nat, ∀ x ∈ specMergePass l, x ∈ l ∨ x ≤ 15 := by
  intro l
  induction l using specMergePass.induct with
  | case1 => simp [specMergePass]
  | case2 a => simp [specMergePass]
  | case3 b rest ih =>
    intro x hx
    simp [specMergePass] at hx
    rcases hx with hx | hx
    · right; omega
    · rcases ih x hx with h | h
      · left; simp [h]
      · right; exact h
  | case4 a b rest hab ih =>
    intro x hx
    simp [specMergePass, hab] at hx
    rcases hx with hx | hx
    · left; simp [hx]
    · rcases ih x hx with h | h
      · left; simp [List.mem_cons] at h ⊢; tauto
      · right; exact h

theorem process_line_expand (l : List Nat) :
    process_line l = mergeLoop false (l.filter fun v => v ≠ 0) ++
      List.replicate (4 - (mergeLoop false (l.filter fun v => v ≠ 0)).length) 0 := rfl

theorem process_line_length (l : List Nat) (h : l.length ≤ 4) :
    (process_line l).length = 4 := by
  have h1 : (mergeLoop false (l.filter fun v => v ≠ 0)).length ≤ 4 := by
    rw [mergeLoop_eq_specMergePass]
    exact le_trans (specMergePass_length_le _) (le_trans (List.length_filter_le _ _) h)
  rw [process_line_expand, List.length_append, List.length_replicate]
  omega

/-- If `process_line` changes a length-4 line, the output contains a zero. -/
theorem zero_mem_process_line (l : List Nat) (h4 : l.length = 4)
    (hne : process_line l ≠ l) : 0 ∈ process_line l := by
  by_cases hlen : (mergeLoop false (l.filter fun v => v ≠ 0)).length < 4
  · rw [process_line_expand, List.mem_append]
    right
    rw [List.mem_replicate]
    omega
  · exfalso
    apply hne
    push_neg at hlen
    have hf1 : (l.filter fun v => v ≠ 0).length ≤ 4 := by
      rw [← h4]; exact List.length_filter_le _ _
    have hm1 : (mergeLoop false (l.filter fun v => v ≠ 0)).length
        ≤ (l.filter fun v => v ≠ 0).length := by
      rw [mergeLoop_eq_specMergePass]; exact specMergePass_length_le _
    have hf : (l.filter fun v => v ≠ 0) = l := by
      apply (List.filter_sublist l).eq_of_length
      omega
    have hm : mergeLoop false (l.filter fun v => v ≠ 0) = l.filter fun v => v ≠ 0 := by
      rw [mergeLoop_eq_specMergePass]
      apply specMergePass_eq_of_length
      rw [← mergeLoop_eq_specMergePass]
      omega
    rw [process_line_expand, hm, hf, h4]
    simp

/-- `process_line` keeps entries below 16 when its input entries are. -/
theorem process_line_mem_lt (l : List Nat) (hl : ∀ x ∈ l, x < 16) :
    ∀ x ∈ process_line l, x < 16 := by
  intro x hx
  rw [process_line_expand, List.mem_append] at hx
  rcases hx with hx | hx
  · rw [mergeLoop_eq_specMergePass] at hx
    rcases specMergePass_mem _ x hx with h | h
    · exact hl x (List.mem_filter.mp h).1
    · omega
  · rw [List.mem_replicate] at hx
    omega

/-- A zero-free line with no adjacent equal pair is left unchanged. -/
theorem process_line_eq_self (x0 x1 x2 x3 : Nat) (h0 : x0 ≠ 0) (h1 : x1 ≠ 0)
    (h2 : x2 ≠ 0) (h3 : x3 ≠ 0) (h01 : x0 ≠ x1) (h12 : x1 ≠ x2) (h23 : x2 ≠ x3) :
    process_line [x0, x1, x2, x3] = [x0, x1, x2, x3] := by
  have hf : ([x0, x1, x2, x3].filter fun v => v ≠ 0) = [x0, x1, x2, x3] := by
    simp [List.filter, h0, h1, h2, h3]
  rw [process_line_expand, hf, mergeLoop_eq_specMergePass]
  simp [specMergePass, h01, h12, h23]

/-! ### Move lemmas -/

theorem moveLeft_unfold (b : Nat) :
    moveLeft b = rowStep (rowStep (rowStep (rowStep (b, false) 0) 1) 2) 3 := rfl

theorem moveRight_unfold (b : Nat) :
    moveRight b = rowStepRev (rowStepRev (rowStepRev (rowStepRev (b, false) 0) 1) 2) 3 := rfl

theorem moveUp_unfold (b : Nat) :
    moveUp b = colStep (colStep (colStep (colStep (b, false) 0) 1) 2) 3 := rfl

theorem moveDown_unfold (b : Nat) :
    moveDown b = colStepRev (colStepRev (colStepRev (colStepRev (b, false) 0) 1) 2) 3 := rfl

theorem finishMove_nospawn (st : Nat × Bool) (k : Nat) (coin : Bool) :
    finishMove st false k coin = st := by
  simp [finishMove]

theorem rowStep_false (st : Nat × Bool) (r : Nat) (h : (rowStep st r).2 = false) :
    rowStep st r = (st.1, false) ∧ st.2 = false := by
  simp only [rowStep, Bool.or_eq_false_iff, decide_eq_false_iff_not, not_not] at h
  refine ⟨?_, h.1⟩
  simp [rowStep, h.1, h.2, set_row_get_row]

theorem rowStepRev_false (st : Nat × Bool) (r : Nat) (h : (rowStepRev st r).2 = false) :
    rowStepRev st r = (st.1, false) ∧ st.2 = false := by
  simp only [rowStepRev, Bool.or_eq_false_iff, decide_eq_false_iff_not, not_not] at h
  refine ⟨?_, h.1⟩
  simp [rowStepRev, h.1, h.2, set_row_get_row]

theorem colStep_false (st : Nat × Bool) (c : Nat) (h : (colStep st c).2 = false) :
    colStep st c = (st.1, false) ∧ st.2 = false := by
  simp only [colStep, Bool.or_eq_false_iff, decide_eq_false_iff_not, not_not] at h
  refine ⟨?_, h.1⟩
  simp [colStep, h.1, h.2, set_column_get_column]

theorem colStepRev_false (st : Nat × Bool) (c : Nat) (h : (colStepRev st c).2 = false) :
    colStepRev st c = (st.1, false) ∧ st.2 = false := by
  simp only [colStepRev, Bool.or_eq_false_iff, decide_eq_false_iff_not, not_not] at h
  refine ⟨?_, h.1⟩
  simp [colStepRev, h.1, h.2, set_column_get_column]

/-- A left move that reports `moved = false` leaves the board unchanged. -/
theorem moveLeft_false (b : Nat) (h : (moveLeft b).2 = false) : moveLeft b = (b, false) := by
  rw [moveLeft_unfold] at h ⊢
  obtain ⟨e4, f3⟩ := rowStep_false _ 3 h
  obtain ⟨e3, f2⟩ := rowStep_false _ 2 f3
  obtain ⟨e2, f1⟩ := rowStep_false _ 1 f2
  obtain ⟨e1, _⟩ := rowStep_false _ 0 f1
  rw [e4, e3, e2, e1]

theorem moveRight_false (b : Nat) (h : (moveRight b).2 = false) :
    moveRight b = (b, false) := by
  rw [moveRight_unfold] at h ⊢
  obtain ⟨e4, f3⟩ := rowStepRev_false _ 3 h
  obtain ⟨e3, f2⟩ := rowStepRev_false _ 2 f3
  obtain ⟨e2, f1⟩ := rowStepRev_false _ 1 f2
  obtain ⟨e1, _⟩ := rowStepRev_false _ 0 f1
  rw [e4, e3, e2, e1]

theorem moveUp_false (b : Nat) (h : (moveUp b).2 = false) : moveUp b = (b, false) := by
  rw [moveUp_unfold] at h ⊢
  obtain ⟨e4, f3⟩ := colStep_false _ 3 h
  obtain ⟨e3, f2⟩ := colStep_false _ 2 f3
  obtain ⟨e2, f1⟩ := colStep_false _ 1 f2
  obtain ⟨e1, _⟩ := colStep_false _ 0 f1
  rw [e4, e3, e2, e1]

theorem moveDown_false (b : Nat) (h : (moveDown b).2 = false) :
    moveDown b = (b, false) := by
  rw [moveDown_unfold] at h ⊢
  obtain ⟨e4, f3⟩ := colStepRev_false _ 3 h
  obtain ⟨e3, f2⟩ := colStepRev_false _ 2 f3
  obtain ⟨e2, f1⟩ := colStepRev_false _ 1 f2
  obtain ⟨e1, _⟩ := colStepRev_false _ 0 f1
  rw [e4, e3, e2, e1]

theorem rowStep_eq (st : Nat × Bool) (r : Nat)
    (h : process_line (get_row st.1 r) = get_row st.1 r) : rowStep st r = st := by
  simp [rowStep, h, set_row_get_row]

theorem rowStepRev_eq (st : Nat × Bool) (r : Nat)
    (h : process_line (get_row st.1 r).reverse = (get_row st.1 r).reverse) :
    rowStepRev st r = st := by
  simp [rowStepRev, h, set_row_get_row]

theorem colStep_eq (st : Nat × Bool) (c : Nat)
    (h : process_line (get_column st.1 c) = get_column st.1 c) : colStep st c = st := by
  simp [colStep, h, set_column_get_column]

theorem colStepRev_eq (st : Nat × Bool) (c : Nat)
    (h : process_line (get_column st.1 c).reverse = (get_column st.1 c).reverse) :
    colStepRev st c = st := by
  simp [colStepRev, h, set_column_get_column]

/-! ### Game-over characterization -/

/-- `is_game_over` returns `true` exactly when the board is full and no
right- or down-adjacent pair of cells shares an exponent. -/
theorem is_game_over_iff (b : Nat) :
    is_game_over b = true ↔
      ((∀ i < 16, get_cell b i ≠ 0) ∧
       (∀ r < 4, ∀ c < 3, get_cell b (r * 4 + c) ≠ get_cell b (r * 4 + c + 1)) ∧
       (∀ r < 3, ∀ c < 4, get_cell b (r * 4 + c) ≠ get_cell b ((r + 1) * 4 + c))) := by
  unfold is_game_over
  constructor
  · intro h
    split_ifs at h with hA hB
    refine ⟨?_, ?_, ?_⟩
    · intro i hi hcell
      apply hA
      simp only [List.any_eq_true, List.mem_range, beq_iff_eq]
      exact ⟨i, hi, hcell⟩
    · intro r hr c hc heq
      apply hB
      simp only [List.any_eq_true, List.mem_range, Bool.or_eq_true, Bool.and_eq_true,
        decide_eq_true_eq, beq_iff_eq]
      exact ⟨r, hr, c, by omega, Or.inl ⟨hc, heq⟩⟩
    · intro r hr c hc heq
      apply hB
      simp only [List.any_eq_true, List.mem_range, Bool.or_eq_true, Bool.and_eq_true,
        decide_eq_true_eq, beq_iff_eq]
      exact ⟨r, by omega, c, hc, Or.inr ⟨hr, heq⟩⟩
  · rintro ⟨hful, hadjR, hadjD⟩
    split_ifs with hA hB
    · exfalso
      simp only [List.any_eq_true, List.mem_range, beq_iff_eq] at hA
      obtain ⟨i, hi, h0⟩ := hA
      exact hful i hi h0
    · exfalso
      simp only [List.any_eq_true, List.mem_range, Bool.or_eq_true, Bool.and_eq_true,
        decide_eq_true_eq, beq_iff_eq] at hB
      obtain ⟨r, hr, c, hc, hor⟩ := hB
      rcases hor with ⟨hc3, heq⟩ | ⟨hr3, heq⟩
      · exact hadjR r hr c hc3 heq
      · exact hadjD r hr3 c hc heq
    · rfl

/-- On a full board with no adjacent equal pair in its rows, every row is a
fixed point of `process_line`. -/
theorem row_no_change (b : Nat) (r : Nat) (hr : r < 4)
    (hful : ∀ i < 16, get_cell b i ≠ 0)
    (hadjR : ∀ r' < 4, ∀ c < 3, get_cell b (r' * 4 + c) ≠ get_cell b (r' * 4 + c + 1)) :
    process_line (get_row b r) = get_row b r := by
  rw [get_row_unfold]
  apply process_line_eq_self
  · exact hful _ (by omega)
  · exact hful _ (by omega)
  · exact hful _ (by omega)
  · exact hful _ (by omega)
  · simpa using hadjR r hr 0 (by norm_num)
  · simpa using hadjR r hr 1 (by norm_num)
  · simpa using hadjR r hr 2 (by norm_num)

theorem row_no_change_rev (b : Nat) (r : Nat) (hr : r < 4)
    (hful : ∀ i < 16, get_cell b i ≠ 0)
    (hadjR : ∀ r' < 4, ∀ c < 3, get_cell b (r' * 4 + c) ≠ get_cell b (r' * 4 + c + 1)) :
    process_line (get_row b r).reverse = (get_row b r).reverse := by
  rw [get_row_unfold]
  have hrev : ([get_cell b (r * 4), get_cell b (r * 4 + 1), get_cell b (r * 4 + 2),
      get_cell b (r * 4 + 3)] : List Nat).reverse
      = [get_cell b (r * 4 + 3), get_cell b (r * 4 + 2), get_cell b (r * 4 + 1),
        get_cell b (r * 4)] := by simp
  rw [hrev]
  apply process_line_eq_self
  · exact hful _ (by omega)
  · exact hful _ (by omega)
  · exact hful _ (by omega)
  · exact hful _ (by omega)
  · exact (by simpa using hadjR r hr 2 (by norm_num) : _ ≠ _).symm
  · exact (by simpa using hadjR r hr 1 (by norm_num) : _ ≠ _).symm
  · exact (by simpa using hadjR r hr 0 (by norm_num) : _ ≠ _).symm

theorem col_no_change (b : Nat) (c : Nat) (hc : c < 4)
    (hful : ∀ i < 16, get_cell b i ≠ 0)
    (hadjD : ∀ r < 3, ∀ c' < 4, get_cell b (r * 4 + c') ≠ get_cell b ((r + 1) * 4 + c')) :
    process_line (get_column b c) = get_column b c := by
  rw [get_column_unfold]
  apply process_line_eq_self
  · exact hful _ (by omega)
  · exact hful _ (by omega)
  · exact hful _ (by omega)
  · exact hful _ (by omega)
  · simpa using hadjD 0 (by norm_num) c hc
  · simpa using hadjD 1 (by norm_num) c hc
  · simpa using hadjD 2 (by norm_num) c hc

theorem col_no_change_rev (b : Nat) (c : Nat) (hc : c < 4)
    (hful : ∀ i < 16, get_cell b i ≠ 0)
    (hadjD : ∀ r < 3, ∀ c' < 4, get_cell b (r * 4 + c') ≠ get_cell b ((r + 1) * 4 + c')) :
    process_line (get_column b c).reverse = (get_column b c).reverse := by
  rw [get_column_unfold]
  have hrev : ([get_cell b (0 * 4 + c), get_cell b (1 * 4 + c), get_cell b (2 * 4 + c),
      get_cell b (3 * 4 + c)] : List Nat).reverse
      = [get_cell b (3 * 4 + c), get_cell b (2 * 4 + c), get_cell b (1 * 4 + c),
        get_cell b (0 * 4 + c)] := by simp
  rw [hrev]
  apply process_line_eq_self
  · exact hful _ (by omega)
  · exact hful _ (by omega)
  · exact hful _ (by omega)
  · exact hful _ (by omega)
  · exact (by simpa using hadjD 2 (by norm_num) c hc : _ ≠ _).symm
  · exact (by simpa using hadjD 1 (by norm_num) c hc : _ ≠ _).symm
  · exact (by simpa using hadjD 0 (by norm_num) c hc : _ ≠ _).symm

/-! ### Claims -/

/-- C1 (amended): `is_game_over` returns `true` exactly when the board is
full and no right/down-adjacent pair shares an exponent; when it returns
`true`, every direction's `move(d, spawn=false)` returns `false` and leaves
the board unchanged.  (The converse of the second part fails, e.g. on the
empty board, so the claimed equivalence with "all moves are no-ops" is
weakened to this implication.) -/
theorem C1_game_over_characterization (b : Nat) :
    (is_game_over b = true ↔
      ((∀ i < 16, get_cell b i ≠ 0) ∧
       (∀ r < 4, ∀ c < 3, get_cell b (r * 4 + c) ≠ get_cell b (r * 4 + c + 1)) ∧
       (∀ r < 3, ∀ c < 4, get_cell b (r * 4 + c) ≠ get_cell b ((r + 1) * 4 + c)))) ∧
    (is_game_over b = true →
      ∀ d ∈ (["up", "down", "left", "right"] : List String),
        ∀ (k : Nat) (coin : Bool), move b d false k coin = Except.ok (b, false)) := by
  refine ⟨is_game_over_iff b, ?_⟩
  intro hgo d hd k coin
  obtain ⟨hful, hadjR, hadjD⟩ := (is_game_over_iff b).mp hgo
  have hup : moveUp b = (b, false) := by
    have h0 := colStep_eq (b, false) 0 (col_no_change b 0 (by norm_num) hful hadjD)
    have h1 := colStep_eq (b, false) 1 (col_no_change b 1 (by norm_num) hful hadjD)
    have h2 := colStep_eq (b, false) 2 (col_no_change b 2 (by norm_num) hful hadjD)
    have h3 := colStep_eq (b, false) 3 (col_no_change b 3 (by norm_num) hful hadjD)
    rw [moveUp_unfold, h0, h1, h2, h3]
  have hdown : moveDown b = (b, false) := by
    have h0 := colStepRev_eq (b, false) 0 (col_no_change_rev b 0 (by norm_num) hful hadjD)
    have h1 := colStepRev_eq (b, false) 1 (col_no_change_rev b 1 (by norm_num) hful hadjD)
    have h2 := colStepRev_eq (b, false) 2 (col_no_change_rev b 2 (by norm_num) hful hadjD)
    have h3 := colStepRev_eq (b, false) 3 (col_no_change_rev b 3 (by norm_num) hful hadjD)
    rw [moveDown_unfold, h0, h1, h2, h3]
  have hleft : moveLeft b = (b, false) := by
    have h0 := rowStep_eq (b, false) 0 (row_no_change b 0 (by norm_num) hful hadjR)
    have h1 := rowStep_eq (b, false) 1 (row_no_change b 1 (by norm_num) hful hadjR)
    have h2 := rowStep_eq (b, false) 2 (row_no_change b 2 (by norm_num) hful hadjR)
    have h3 := rowStep_eq (b, false) 3 (row_no_change b 3 (by norm_num) hful hadjR)
    rw [moveLeft_unfold, h0, h1, h2, h3]
  have hright : moveRight b = (b, false) := by
    have h0 := rowStepRev_eq (b, false) 0 (row_no_change_rev b 0 (by norm_num) hful hadjR)
    have h1 := rowStepRev_eq (b, false) 1 (row_no_change_rev b 1 (by norm_num) hful hadjR)
    have h2 := rowStepRev_eq (b, false) 2 (row_no_change_rev b 2 (by norm_num) hful hadjR)
    have h3 := rowStepRev_eq (b, false) 3 (row_no_change_rev b 3 (by norm_num) hful hadjR)
    rw [moveRight_unfold, h0, h1, h2, h3]
  simp only [List.mem_cons, List.not_mem_nil, or_false] at hd
  rcases hd with rfl | rfl | rfl | rfl
  · simp [move, finishMove_nospawn, hup]
  · simp [move, finishMove_nospawn, hdown]
  · simp [move, finishMove_nospawn, hleft]
  · simp [move, finishMove_nospawn, hright]

/-- C1 counterexample to the claimed equivalence: on the empty board every
direction's `move(d, spawn=false)` returns `false` and leaves the board
unchanged, yet `is_game_over` returns `false` (the board is not full). -/
theorem C1_counterexample :
    move 0 "up" false 0 false = Except.ok (0, false) ∧
    move 0 "down" false 0 false = Except.ok (0, false) ∧
    move 0 "left" false 0 false = Except.ok (0, false) ∧
    move 0 "right" false 0 false = Except.ok (0, false) ∧
    is_game_over 0 = false :=
  ⟨rfl, rfl, rfl, rfl, rfl⟩

/-- C1 witness: a concrete full board with pairwise-distinct neighbours is
game over, and moving it in any direction is a no-op. -/
theorem C1_witness :
    is_game_over 0x2121121221211212 = true ∧
    move 0x2121121221211212 "left" false 0 false = Except.ok (0x2121121221211212, false) := by
  have h : is_game_over 0x2121121221211212 = true := by decide
  exact ⟨h, (C1_game_over_characterization 0x2121121221211212).2 h "left" (by decide) 0 false⟩

/-- C2: `process_line` coincides with the spec's three-step description
(compact, single left-to-right merge pass with cap `min (e+1) 15`, pad with
zeros to length 4) — for every input line, in particular lines of length 4. -/
theorem C2_process_line_refines_spec (L : List Nat) :
    process_line L = spec_process_line L := by
  rw [process_line_expand, mergeLoop_eq_specMergePass]
  rfl

/-- C4 counterexample: at `e = 15` the merge caps at 15, so
`process_line [e, e, e, e]` is `[15, 15, 0, 0]`, not `[e+1, e+1, 0, 0]`. -/
theorem C4_counterexample :
    1 ≤ 15 ∧ 15 ≤ 15 ∧ process_line [15, 15, 15, 15] ≠ [15 + 1, 15 + 1, 0, 0] := by
  decide

/-- C4 (amended): for every exponent `e` in 1..15,
`process_line [e, e, e, e] = [min (e+1) 15, min (e+1) 15, 0, 0]` — two
separate merges, no chained merging within one pass, each capped at 15. -/
theorem C4_four_equal_tiles (e : Nat) (h1 : 1 ≤ e) (h15 : e ≤ 15) :
    process_line [e, e, e, e] = [min (e + 1) 15, min (e + 1) 15, 0, 0] := by
  have he : e ≠ 0 := by omega
  have hf : ([e, e, e, e].filter fun v => v ≠ 0) = [e, e, e, e] := by
    simp [List.filter, he]
  rw [process_line_expand, hf, mergeLoop_eq_specMergePass]
  simp [specMergePass, List.replicate]

/-- C4 witness: the amended statement at `e = 2`. -/
theorem C4_witness :
    1 ≤ 2 ∧ 2 ≤ 15 ∧ process_line [2, 2, 2, 2] = [min 3 15, min 3 15, 0, 0] :=
  ⟨by decide, by decide, C4_four_equal_tiles 2 (by decide) (by decide)⟩

/-- C5: if `move(d, spawn=false)` returns `false`, the board after the call
is bit-for-bit equal to the board before the call. -/
theorem C5_noop_move_unchanged (b b' : Nat) (d : String) (k : Nat) (coin : Bool)
    (h : move b d false k coin = Except.ok (b', false)) : b' = b := by
  unfold move at h
  split_ifs at h
  · rw [finishMove_nospawn] at h
    simp only [Except.ok.injEq] at h
    have h2 := moveLeft_false b (by rw [h])
    rw [h] at h2
    exact (Prod.mk.injEq _ _ _ _).mp h2 |>.1
  · rw [finishMove_nospawn] at h
    simp only [Except.ok.injEq] at h
    have h2 := moveRight_false b (by rw [h])
    rw [h] at h2
    exact (Prod.mk.injEq _ _ _ _).mp h2 |>.1
  · rw [finishMove_nospawn] at h
    simp only [Except.ok.injEq] at h
    have h2 := moveUp_false b (by rw [h])
    rw [h] at h2
    exact (Prod.mk.injEq _ _ _ _).mp h2 |>.1
  · rw [finishMove_nospawn] at h
    simp only [Except.ok.injEq] at h
    have h2 := moveDown_false b (by rw [h])
    rw [h] at h2
    exact (Prod.mk.injEq _ _ _ _).mp h2 |>.1

/-- C5 witness: the single-tile board `1` (one tile already flush left)
cannot move left, and the board is unchanged. -/
theorem C5_witness :
    move 1 "left" false 0 false = Except.ok (1, false) ∧ (1 : Nat) = 1 :=
  ⟨rfl, C5_noop_move_unchanged 1 1 "left" 0 false rfl⟩

/-- C6: any direction outside `{up, down, left, right}` raises `ValueError`
with the board unchanged — no mutation and no spawn occur, for any `spawn`
argument and any random draw. -/
theorem C6_invalid_direction (b : Nat) (d : String) (spawn : Bool) (k : Nat) (coin : Bool)
    (hd : d ∉ (["up", "down", "left", "right"] : List String)) :
    move b d spawn k coin = Except.error b := by
  simp only [List.mem_cons, List.not_mem_nil, or_false, not_or] at hd
  obtain ⟨h1, h2, h3, h4⟩ := hd
  simp [move, h1, h2, h3, h4]

/-- C6 witness at direction `"diagonal"` on board 17. -/
theorem C6_witness : move 17 "diagonal" true 3 true = Except.error 17 :=
  C6_invalid_direction 17 "diagonal" true 3 true (by decide)

/-- C8: `set_cell index value` makes `get_cell index` return `value % 16`
(values above 15 are truncated by the `& 0xF` mask) and leaves every other
cell unchanged. -/
theorem C8_set_cell_get_cell (b i v j : Nat) (hi : i < 16) (hj : j < 16) (hne : j ≠ i) :
    get_cell (set_cell b i v) i = v % 16 ∧
    get_cell (set_cell b i v) j = get_cell b j :=
  ⟨get_cell_set_cell_self b i v, get_cell_set_cell_ne b i v j hne⟩

/-- C8 witness: writing 20 to cell 3 stores 4 and leaves cell 5 alone. -/
theorem C8_witness :
    get_cell (set_cell 7 3 20) 3 = 20 % 16 ∧ get_cell (set_cell 7 3 20) 5 = get_cell 7 5 :=
  C8_set_cell_get_cell 7 3 20 5 (by decide) (by decide) (by decide)

/-! ### Spawn lemmas -/

theorem empty_cells_mem (b j : Nat) : j ∈ empty_cells b ↔ j < 16 ∧ get_cell b j = 0 := by
  simp [empty_cells, List.mem_filter, List.mem_range]

theorem empty_cells_nil_iff (b : Nat) :
    empty_cells b = [] ↔ ∀ i < 16, get_cell b i ≠ 0 := by
  simp [empty_cells, List.filter_eq_nil_iff, List.mem_range]

/-- On a board with an empty cell, `spawn_tile` picks one empty cell and
writes exponent 1 (`coin = true`, the 90% branch) or 2 into it. -/
theorem spawn_tile_spec (b k : Nat) (coin : Bool) (h : ∃ i < 16, get_cell b i = 0) :
    ∃ j < 16, get_cell b j = 0 ∧
      spawn_tile b k coin = (set_cell b j (if coin then 1 else 2), true) := by
  have hne : empty_cells b ≠ [] := by
    rw [Ne, empty_cells_nil_iff]
    push_neg
    exact h
  have hlen : 0 < (empty_cells b).length := List.length_pos.mpr hne
  have hklt : k % (empty_cells b).length < (empty_cells b).length := Nat.mod_lt _ hlen
  have hjm : (empty_cells b).getD (k % (empty_cells b).length) 0 ∈ empty_cells b := by
    rw [List.getD_eq_getElem _ _ hklt]
    exact List.getElem_mem _
  obtain ⟨hj16, hj0⟩ := (empty_cells_mem b _).mp hjm
  refine ⟨_, hj16, hj0, ?_⟩
  unfold spawn_tile
  rw [if_neg]
  simp [List.isEmpty_iff, hne]

/-- `spawn_tile` succeeds whenever the board has an empty cell. -/
theorem spawn_tile_pos (b k : Nat) (coin : Bool) (h : ∃ i < 16, get_cell b i = 0) :
    (spawn_tile b k coin).2 = true := by
  obtain ⟨j, _, _, hs⟩ := spawn_tile_spec b k coin h
  rw [hs]

/-- C7: `spawn_tile` on a full board returns `false` with no mutation;
otherwise it returns `true` and sets exactly one previously-empty cell to
exponent 1 or 2, leaving every other cell unchanged. -/
theorem C7_spawn_tile (b k : Nat) (coin : Bool) :
    ((∀ i < 16, get_cell b i ≠ 0) → spawn_tile b k coin = (b, false)) ∧
    ((∃ i < 16, get_cell b i = 0) →
      (spawn_tile b k coin).2 = true ∧
      ∃ j < 16, get_cell b j = 0 ∧
        get_cell (spawn_tile b k coin).1 j = (if coin then 1 else 2) ∧
        ∀ i < 16, i ≠ j → get_cell (spawn_tile b k coin).1 i = get_cell b i) := by
  constructor
  · intro h
    have hnil : empty_cells b = [] := (empty_cells_nil_iff b).mpr h
    simp [spawn_tile, hnil]
  · intro h
    obtain ⟨j, hj16, hj0, hs⟩ := spawn_tile_spec b k coin h
    refine ⟨by rw [hs], j, hj16, hj0, ?_, ?_⟩
    · rw [hs]
      show get_cell (set_cell b j (if coin then 1 else 2)) j = _
      rw [get_cell_set_cell_self]
      cases coin <;> rfl
    · intro i _ hne
      rw [hs]
      exact get_cell_set_cell_ne _ _ _ _ hne

/-- C7 witness: on the all-ones board the spawn fails; on the empty board it
succeeds. -/
theorem C7_witness :
    spawn_tile 0x1111111111111111 0 true = (0x1111111111111111, false) ∧
    (spawn_tile 0 3 true).2 = true :=
  ⟨(C7_spawn_tile 0x1111111111111111 0 true).1 (by decide),
   ((C7_spawn_tile 0 3 true).2 (by decide)).1⟩

/-! ### Bound preservation -/

theorem pow_sixteen_eq : (16 : Nat) ^ 16 = 2 ^ 64 := by norm_num

theorem set_cell_lt64 (b i v : Nat) (hi : i < 16) (hb : b < 2 ^ 64) :
    set_cell b i v < 2 ^ 64 := by
  rw [← pow_sixteen_eq] at hb ⊢
  exact set_cell_lt b i v hi hb

theorem set_row_lt64 (b r : Nat) (l : List Nat) (hr : r < 4) (hb : b < 2 ^ 64) :
    set_row b r l < 2 ^ 64 := by
  rw [set_row_unfold]
  apply set_cell_lt64 _ _ _ (by omega)
  apply set_cell_lt64 _ _ _ (by omega)
  apply set_cell_lt64 _ _ _ (by omega)
  exact set_cell_lt64 _ _ _ (by omega) hb

theorem set_column_lt64 (b c : Nat) (l : List Nat) (hc : c < 4) (hb : b < 2 ^ 64) :
    set_column b c l < 2 ^ 64 := by
  rw [set_column_unfold]
  apply set_cell_lt64 _ _ _ (by omega)
  apply set_cell_lt64 _ _ _ (by omega)
  apply set_cell_lt64 _ _ _ (by omega)
  exact set_cell_lt64 _ _ _ (by omega) hb

theorem spawn_tile_lt64 (b k : Nat) (coin : Bool) (hb : b < 2 ^ 64) :
    (spawn_tile b k coin).1 < 2 ^ 64 := by
  by_cases h : ∃ i < 16, get_cell b i = 0
  · obtain ⟨j, hj16, _, hs⟩ := spawn_tile_spec b k coin h
    rw [hs]
    exact set_cell_lt64 _ _ _ hj16 hb
  · push_neg at h
    have hnil : empty_cells b = [] := (empty_cells_nil_iff b).mpr fun i hi => h i hi
    simp [spawn_tile, hnil]
    exact hb

theorem finishMove_lt64 (st : Nat × Bool) (spawn : Bool) (k : Nat) (coin : Bool)
    (hb : st.1 < 2 ^ 64) : (finishMove st spawn k coin).1 < 2 ^ 64 := by
  unfold finishMove
  split_ifs
  · exact spawn_tile_lt64 _ _ _ hb
  · exact hb

theorem rowStep_fst (st : Nat × Bool) (r : Nat) :
    (rowStep st r).1 = set_row st.1 r (process_line (get_row st.1 r)) := rfl

theorem rowStepRev_fst (st : Nat × Bool) (r : Nat) :
    (rowStepRev st r).1 = set_row st.1 r (process_line (get_row st.1 r).reverse).reverse := rfl

theorem colStep_fst (st : Nat × Bool) (c : Nat) :
    (colStep st c).1 = set_column st.1 c (process_line (get_column st.1 c)) := rfl

theorem colStepRev_fst (st : Nat × Bool) (c : Nat) :
    (colStepRev st c).1 = set_column st.1 c (process_line (get_column st.1 c).reverse).reverse :=
  rfl

theorem moveLeft_lt64 (b : Nat) (hb : b < 2 ^ 64) : (moveLeft b).1 < 2 ^ 64 := by
  rw [moveLeft_unfold, rowStep_fst]
  apply set_row_lt64 _ _ _ (by norm_num)
  rw [rowStep_fst]
  apply set_row_lt64 _ _ _ (by norm_num)
  rw [rowStep_fst]
  apply set_row_lt64 _ _ _ (by norm_num)
  rw [rowStep_fst]
  exact set_row_lt64 _ _ _ (by norm_num) hb

theorem moveRight_lt64 (b : Nat) (hb : b < 2 ^ 64) : (moveRight b).1 < 2 ^ 64 := by
  rw [moveRight_unfold, rowStepRev_fst]
  apply set_row_lt64 _ _ _ (by norm_num)
  rw [rowStepRev_fst]
  apply set_row_lt64 _ _ _ (by norm_num)
  rw [rowStepRev_fst]
  apply set_row_lt64 _ _ _ (by norm_num)
  rw [rowStepRev_fst]
  exact set_row_lt64 _ _ _ (by norm_num) hb

theorem moveUp_lt64 (b : Nat) (hb : b < 2 ^ 64) : (moveUp b).1 < 2 ^ 64 := by
  rw [moveUp_unfold, colStep_fst]
  apply set_column_lt64 _ _ _ (by norm_num)
  rw [colStep_fst]
  apply set_column_lt64 _ _ _ (by norm_num)
  rw [colStep_fst]
  apply set_column_lt64 _ _ _ (by norm_num)
  rw [colStep_fst]
  exact set_column_lt64 _ _ _ (by norm_num) hb

theorem moveDown_lt64 (b : Nat) (hb : b < 2 ^ 64) : (moveDown b).1 < 2 ^ 64 := by
  rw [moveDown_unfold, colStepRev_fst]
  apply set_column_lt64 _ _ _ (by norm_num)
  rw [colStepRev_fst]
  apply set_column_lt64 _ _ _ (by norm_num)
  rw [colStepRev_fst]
  apply set_column_lt64 _ _ _ (by norm_num)
  rw [colStepRev_fst]
  exact set_column_lt64 _ _ _ (by norm_num) hb

/-- C9: every operation keeps the board a 64-bit value: `set_cell` (index in
0..15), `set_row` / `set_column` (line index in 0..3), `spawn_tile`, every
`move` that returns normally, and `reset`. -/
theorem C9_board_invariant (b : Nat) (hb : b < 2 ^ 64) :
    (∀ i < 16, ∀ v, set_cell b i v < 2 ^ 64) ∧
    (∀ r < 4, ∀ l : List Nat, set_row b r l < 2 ^ 64) ∧
    (∀ c < 4, ∀ l : List Nat, set_column b c l < 2 ^ 64) ∧
    (∀ (k : Nat) (coin : Bool), (spawn_tile b k coin).1 < 2 ^ 64) ∧
    (∀ (d : String) (spawn : Bool) (k : Nat) (coin : Bool) (b' : Nat) (m : Bool),
      move b d spawn k coin = Except.ok (b', m) → b' < 2 ^ 64) ∧
    (∀ (k₁ : Nat) (c₁ : Bool) (k₂ : Nat) (c₂ : Bool), reset k₁ c₁ k₂ c₂ < 2 ^ 64) := by
  refine ⟨fun i hi v => set_cell_lt64 b i v hi hb,
    fun r hr l => set_row_lt64 b r l hr hb,
    fun c hc l => set_column_lt64 b c l hc hb,
    fun k coin => spawn_tile_lt64 b k coin hb,
    ?_,
    fun k₁ c₁ k₂ c₂ => spawn_tile_lt64 _ k₂ c₂ (spawn_tile_lt64 0 k₁ c₁ (by norm_num))⟩
  intro d spawn k coin b' m h
  unfold move at h
  split_ifs at h
  · simp only [Except.ok.injEq] at h
    have := finishMove_lt64 (moveLeft b) spawn k coin (moveLeft_lt64 b hb)
    rw [h] at this
    exact this
  · simp only [Except.ok.injEq] at h
    have := finishMove_lt64 (moveRight b) spawn k coin (moveRight_lt64 b hb)
    rw [h] at this
    exact this
  · simp only [Except.ok.injEq] at h
    have := finishMove_lt64 (moveUp b) spawn k coin (moveUp_lt64 b hb)
    rw [h] at this
    exact this
  · simp only [Except.ok.injEq] at h
    have := finishMove_lt64 (moveDown b) spawn k coin (moveDown_lt64 b hb)
    rw [h] at this
    exact this

/-- C9 witness at board 0. -/
theorem C9_witness : set_cell 0 15 255 < 2 ^ 64 ∧ reset 0 true 1 false < 2 ^ 64 :=
  ⟨(C9_board_invariant 0 (by norm_num)).1 15 (by norm_num) 255,
   (C9_board_invariant 0 (by norm_num)).2.2.2.2.2 0 true 1 false⟩

/-! ### A successful merge/shift phase leaves an empty cell -/

theorem exists_getD_zero {l : List Nat} (hlen : l.length = 4) (hz : (0 : Nat) ∈ l) :
    ∃ c < 4, l.getD c 0 = 0 := by
  rw [List.mem_iff_getElem] at hz
  obtain ⟨n, hn, hval⟩ := hz
  exact ⟨n, by omega, by rw [List.getD_eq_getElem _ _ hn, hval]⟩

theorem get_row_length (b r : Nat) : (get_row b r).length = 4 := by
  rw [get_row_unfold]
  rfl

theorem get_column_length (b c : Nat) : (get_column b c).length = 4 := by
  rw [get_column_unfold]
  rfl

theorem rowStep_cases (st : Nat × Bool) (r : Nat) (hr : r < 4) :
    rowStep st r = st ∨ ∃ j < 16, get_cell (rowStep st r).1 j = 0 := by
  by_cases hc : process_line (get_row st.1 r) = get_row st.1 r
  · exact Or.inl (rowStep_eq st r hc)
  · right
    have hz : (0 : Nat) ∈ process_line (get_row st.1 r) :=
      zero_mem_process_line _ (get_row_length _ _) hc
    obtain ⟨c, hc4, hgetc⟩ :=
      exists_getD_zero (process_line_length _ (by rw [get_row_length])) hz
    refine ⟨r * 4 + c, by omega, ?_⟩
    rw [rowStep_fst, get_cell_set_row_self _ _ _ _ hc4, hgetc]

theorem rowStepRev_cases (st : Nat × Bool) (r : Nat) (hr : r < 4) :
    rowStepRev st r = st ∨ ∃ j < 16, get_cell (rowStepRev st r).1 j = 0 := by
  by_cases hc : process_line (get_row st.1 r).reverse = (get_row st.1 r).reverse
  · exact Or.inl (rowStepRev_eq st r hc)
  · right
    have hz : (0 : Nat) ∈ process_line (get_row st.1 r).reverse :=
      zero_mem_process_line _ (by rw [List.length_reverse, get_row_length]) hc
    have hzr : (0 : Nat) ∈ (process_line (get_row st.1 r).reverse).reverse :=
      List.mem_reverse.mpr hz
    obtain ⟨c, hc4, hgetc⟩ :=
      exists_getD_zero (by
        rw [List.length_reverse]
        exact process_line_length _ (by rw [List.length_reverse, get_row_length])) hzr
    refine ⟨r * 4 + c, by omega, ?_⟩
    rw [rowStepRev_fst, get_cell_set_row_self _ _ _ _ hc4, hgetc]

theorem colStep_cases (st : Nat × Bool) (c : Nat) (hc : c < 4) :
    colStep st c = st ∨ ∃ j < 16, get_cell (colStep st c).1 j = 0 := by
  by_cases hch : process_line (get_column st.1 c) = get_column st.1 c
  · exact Or.inl (colStep_eq st c hch)
  · right
    have hz : (0 : Nat) ∈ process_line (get_column st.1 c) :=
      zero_mem_process_line _ (get_column_length _ _) hch
    obtain ⟨r, hr4, hgetr⟩ :=
      exists_getD_zero (process_line_length _ (by rw [get_column_length])) hz
    refine ⟨r * 4 + c, by omega, ?_⟩
    rw [colStep_fst, get_cell_set_column_self _ _ _ _ hr4, hgetr]

theorem colStepRev_cases (st : Nat × Bool) (c : Nat) (hc : c < 4) :
    colStepRev st c = st ∨ ∃ j < 16, get_cell (colStepRev st c).1 j = 0 := by
  by_cases hch : process_line (get_column st.1 c).reverse = (get_column st.1 c).reverse
  · exact Or.inl (colStepRev_eq st c hch)
  · right
    have hz : (0 : Nat) ∈ process_line (get_column st.1 c).reverse :=
      zero_mem_process_line _ (by rw [List.length_reverse, get_column_length]) hch
    have hzr : (0 : Nat) ∈ (process_line (get_column st.1 c).reverse).reverse :=
      List.mem_reverse.mpr hz
    obtain ⟨r, hr4, hgetr⟩ :=
      exists_getD_zero (by
        rw [List.length_reverse]
        exact process_line_length _ (by rw [List.length_reverse, get_column_length])) hzr
    refine ⟨r * 4 + c, by omega, ?_⟩
    rw [colStepRev_fst, get_cell_set_column_self _ _ _ _ hr4, hgetr]

theorem moveLeft_true_zero (b : Nat) (h : (moveLeft b).2 = true) :
    ∃ j < 16, get_cell (moveLeft b).1 j = 0 := by
  rw [moveLeft_unfold] at h ⊢
  rcases rowStep_cases (rowStep (rowStep (rowStep (b, false) 0) 1) 2) 3 (by norm_num)
    with h4 | h4
  · rw [h4] at h ⊢
    rcases rowStep_cases (rowStep (rowStep (b, false) 0) 1) 2 (by norm_num) with h3 | h3
    · rw [h3] at h ⊢
      rcases rowStep_cases (rowStep (b, false) 0) 1 (by norm_num) with h2 | h2
      · rw [h2] at h ⊢
        rcases rowStep_cases (b, false) 0 (by norm_num) with h1 | h1
        · rw [h1] at h
          exact absurd h (by simp)
        · exact h1
      · exact h2
    · exact h3
  · exact h4

theorem moveRight_true_zero (b : Nat) (h : (moveRight b).2 = true) :
    ∃ j < 16, get_cell (moveRight b).1 j = 0 := by
  rw [moveRight_unfold] at h ⊢
  rcases rowStepRev_cases (rowStepRev (rowStepRev (rowStepRev (b, false) 0) 1) 2) 3
    (by norm_num) with h4 | h4
  · rw [h4] at h ⊢
    rcases rowStepRev_cases (rowStepRev (rowStepRev (b, false) 0) 1) 2 (by norm_num)
      with h3 | h3
    · rw [h3] at h ⊢
      rcases rowStepRev_cases (rowStepRev (b, false) 0) 1 (by norm_num) with h2 | h2
      · rw [h2] at h ⊢
        rcases rowStepRev_cases (b, false) 0 (by norm_num) with h1 | h1
        · rw [h1] at h
          exact absurd h (by simp)
        · exact h1
      · exact h2
    · exact h3
  · exact h4

theorem moveUp_true_zero (b : Nat) (h : (moveUp b).2 = true) :
    ∃ j < 16, get_cell (moveUp b).1 j = 0 := by
  rw [moveUp_unfold] at h ⊢
  rcases colStep_cases (colStep (colStep (colStep (b, false) 0) 1) 2) 3 (by norm_num)
    with h4 | h4
  · rw [h4] at h ⊢
    rcases colStep_cases (colStep (colStep (b, false) 0) 1) 2 (by norm_num) with h3 | h3
    · rw [h3] at h ⊢
      rcases colStep_cases (colStep (b, false) 0) 1 (by norm_num) with h2 | h2
      · rw [h2] at h ⊢
        rcases colStep_cases (b, false) 0 (by norm_num) with h1 | h1
        · rw [h1] at h
          exact absurd h (by simp)
        · exact h1
      · exact h2
    · exact h3
  · exact h4

theorem moveDown_true_zero (b : Nat) (h : (moveDown b).2 = true) :
    ∃ j < 16, get_cell (moveDown b).1 j = 0 := by
  rw [moveDown_unfold] at h ⊢
  rcases colStepRev_cases (colStepRev (colStepRev (colStepRev (b, false) 0) 1) 2) 3
    (by norm_num) with h4 | h4
  · rw [h4] at h ⊢
    rcases colStepRev_cases (colStepRev (colStepRev (b, false) 0) 1) 2 (by norm_num)
      with h3 | h3
    · rw [h3] at h ⊢
      rcases colStepRev_cases (colStepRev (b, false) 0) 1 (by norm_num) with h2 | h2
      · rw [h2] at h ⊢
        rcases colStepRev_cases (b, false) 0 (by norm_num) with h1 | h1
        · rw [h1] at h
          exact absurd h (by simp)
        · exact h1
      · exact h2
    · exact h3
  · exact h4

/-- Shared helper: a merge/shift phase that reports `moved = true` leaves an
empty cell on the written board. -/
theorem move_phase_zero (b b' : Nat) (d : String) (k : Nat) (coin : Bool)
    (h : move b d false k coin = Except.ok (b', true)) :
    ∃ j < 16, get_cell b' j = 0 := by
  unfold move at h
  split_ifs at h
  · rw [finishMove_nospawn] at h
    simp only [Except.ok.injEq] at h
    have := moveLeft_true_zero b (by rw [h])
    rwa [h] at this
  · rw [finishMove_nospawn] at h
    simp only [Except.ok.injEq] at h
    have := moveRight_true_zero b (by rw [h])
    rwa [h] at this
  · rw [finishMove_nospawn] at h
    simp only [Except.ok.injEq] at h
    have := moveUp_true_zero b (by rw [h])
    rwa [h] at this
  · rw [finishMove_nospawn] at h
    simp only [Except.ok.injEq] at h
    have := moveDown_true_zero b (by rw [h])
    rwa [h] at this

/-- C10: after a successful `move(d, spawn=false)` the board has at least one
empty cell, so the single spawn performed by `move(d, spawn=true)` always
succeeds. -/
theorem C10_moved_leaves_empty (b b' : Nat) (d : String) (k : Nat) (coin : Bool)
    (h : move b d false k coin = Except.ok (b', true)) :
    (∃ j < 16, get_cell b' j = 0) ∧
    ∀ (k' : Nat) (coin' : Bool), (spawn_tile b' k' coin').2 = true := by
  have hz := move_phase_zero b b' d k coin h
  exact ⟨hz, fun k' coin' => spawn_tile_pos b' k' coin' hz⟩

/-- C10 witness: board 16 (one tile at cell 1) moves left to board 1, which
has empty cells, and spawning on it succeeds. -/
theorem C10_witness :
    move 16 "left" false 0 false = Except.ok (1, true) ∧
    (∃ j < 16, get_cell 1 j = 0) ∧
    ∀ (k' : Nat) (coin' : Bool), (spawn_tile 1 k' coin').2 = true :=
  ⟨rfl, C10_moved_leaves_empty 16 1 "left" 0 false rfl⟩

/-! ### Spawn count -/

/-- Writing a non-zero value into an empty cell raises the non-empty count by
exactly one. -/
theorem count_set_nonzero (b j v : Nat) (hj : j < 16) (h0 : get_cell b j = 0)
    (hv : v % 16 ≠ 0) : count_nonempty (set_cell b j v) = count_nonempty b + 1 := by
  unfold count_nonempty
  have key : ((Finset.range 16).filter fun i => get_cell (set_cell b j v) i ≠ 0)
      = insert j ((Finset.range 16).filter fun i => get_cell b i ≠ 0) := by
    ext x
    simp only [Finset.mem_filter, Finset.mem_insert, Finset.mem_range]
    constructor
    · rintro ⟨hx16, hxne⟩
      by_cases hxj : x = j
      · exact Or.inl hxj
      · exact Or.inr ⟨hx16, by rwa [get_cell_set_cell_ne _ _ _ _ hxj] at hxne⟩
    · rintro (rfl | ⟨hx16, hxne⟩)
      · exact ⟨hj, by rw [get_cell_set_cell_self]; exact hv⟩
      · by_cases hxj : x = j
        · subst hxj
          exact absurd h0 hxne
        · exact ⟨hx16, by rw [get_cell_set_cell_ne _ _ _ _ hxj]; exact hxne⟩
  rw [key, Finset.card_insert_of_not_mem]
  simp [Finset.mem_filter, h0]

/-- C3 counterexample: on board 17 (row `[1,1,0,0]`, two non-empty cells) a
left move with spawn merges the pair and spawns one tile, so the count stays
2 instead of rising to 3. -/
theorem C3_counterexample :
    move 17 "left" true 0 true = Except.ok (18, true) ∧
    count_nonempty 17 = 2 ∧ count_nonempty 18 = 2 ∧
    count_nonempty 18 ≠ count_nonempty 17 + 1 :=
  ⟨rfl, by decide, by decide, by decide⟩

/-- C3 (amended): after a successful `move(d, spawn=true)`, the non-empty
cell count is exactly one more than that of the board produced by the
merge/shift phase alone (`move(d, spawn=false)`): the spawn adds exactly one
tile.  Relative to the pre-move board the count need not grow, since merges
reduce it. -/
theorem C3_spawn_count (b b' k : Nat) (coin : Bool) (d : String)
    (h : move b d false 0 false = Except.ok (b', true)) :
    ∃ b'', move b d true k coin = Except.ok (b'', true) ∧
      count_nonempty b'' = count_nonempty b' + 1 := by
  have hz : ∃ j < 16, get_cell b' j = 0 := move_phase_zero b b' d 0 false h
  obtain ⟨j, hj16, hj0, hs⟩ := spawn_tile_spec b' k coin hz
  have hvne : (if coin then 1 else 2) % 16 ≠ 0 := by cases coin <;> decide
  have hcount : count_nonempty (spawn_tile b' k coin).1 = count_nonempty b' + 1 := by
    rw [hs]
    exact count_set_nonzero b' j _ hj16 hj0 hvne
  refine ⟨(spawn_tile b' k coin).1, ?_, hcount⟩
  unfold move at h ⊢
  split_ifs at h ⊢
  · rw [finishMove_nospawn] at h
    simp only [Except.ok.injEq] at h
    rw [h]
    simp [finishMove]
  · rw [finishMove_nospawn] at h
    simp only [Except.ok.injEq] at h
    rw [h]
    simp [finishMove]
  · rw [finishMove_nospawn] at h
    simp only [Except.ok.injEq] at h
    rw [h]
    simp [finishMove]
  · rw [finishMove_nospawn] at h
    simp only [Except.ok.injEq] at h
    rw [h]
    simp [finishMove]

/-- C3 witness: board 17 moves left to board 2 (`moved = true`), and the
spawning variant yields a board with one more tile than board 2. -/
theorem C3_witness :
    move 17 "left" false 0 false = Except.ok (2, true) ∧
    ∃ b'', move 17 "left" true 0 true = Except.ok (b'', true) ∧
      count_nonempty b'' = count_nonempty 2 + 1 :=
  ⟨rfl, C3_spawn_count 17 2 0 true "left" rfl⟩

end Game2048
